import Mathlib

/-!
Shallow embedding of the mines-style wagering game core from
`src/components/GameBoard.tsx`, together with proofs about its action
surface (deposit, setStake, setHazardCount, newRound, lockIn, reveal,
cashOut).

Modelling conventions:
* JS numbers are embedded as rationals (`ℚ`); the concrete settings
  (`baseMultiplier = 1.2`, `riskFactor = 0.1`) are exact rationals.
* `Math.random()`-driven grid generation is embedded as an oracle: every
  action that re-draws the grid takes the freshly drawn `blocks` list as
  an explicit argument.
* JS array reads `a[i]` that may fall off the end evaluate to `undefined`,
  which is falsy; this is embedded as `List.getD i false`.  A JS write
  `a[i] = true` past the end extends the array, the intermediate holes
  reading as falsy; this is embedded by `setIndexTrue` below.
* The two chained functional `setGameState` updates inside
  `handleBlockClick` compose sequentially; the embedding applies the
  first-click debit state first and feeds it to the reveal update.
-/

/-- Grid configuration, from the `GameSettings` type used in
`GameBoard.tsx`. -/
structure GameSettings where
  gridSize : ℕ
  maxMines : ℕ
  baseMultiplier : ℚ
  riskFactor : ℚ
deriving DecidableEq

/-- The fixed settings `GAME_SETTINGS` of `GameBoard.tsx` lines 10-15:
gridSize 25, maxMines 15, baseMultiplier 1.2, riskFactor 0.1. -/
def GAME_SETTINGS : GameSettings :=
  { gridSize := 25, maxMines := 15, baseMultiplier := 6/5, riskFactor := 1/10 }

/-- Round state, from the `GameState` shape produced by
`initialGameState` and the handlers in `GameBoard.tsx`.  `blocks` is the
hidden grid (`true` = gem/safe, `false` = ruby/hazard). -/
structure GameState where
  blocks : List Bool
  revealed : List Bool
  gameOver : Bool
  score : ℕ
  stake : ℚ
  multiplier : ℚ
  potentialPayout : ℚ
  mineCount : ℕ
  balance : ℚ
  isPlaying : Bool
  isLockedIn : Bool
deriving DecidableEq

/-- Modelled from the spec: `multiplier(baseMultiplier, riskFactor,
safeRevealCount)` of the Payout Engine (`src/utils/gameCalculations.ts`,
not present under `src/`): compounding growth in the safe-reveal count,
equal to `baseMultiplier` at count 0 and non-decreasing for positive
risk. -/
def calculateMultiplier (base risk : ℚ) (safeRevealCount : ℕ) : ℚ :=
  base * (1 + risk) ^ safeRevealCount

/-- Modelled from the spec: `potentialPayout(stake, multiplier) = stake ×
multiplier` of the Payout Engine (`src/utils/gameCalculations.ts`, not
present under `src/`). -/
def calculatePotentialPayout (stake multiplier : ℚ) : ℚ :=
  stake * multiplier

/-- `initialGameState` of `GameBoard.tsx` lines 17-31.  The random
per-cell draw of `blocks` is replaced by the `blocks` oracle argument. -/
def initialGameState (settings : GameSettings) (mineCount : ℕ)
    (blocks : List Bool) (savedBalance : ℚ) : GameState :=
  { blocks := blocks
    revealed := List.replicate settings.gridSize false
    gameOver := false
    score := 0
    stake := 1
    multiplier := settings.baseMultiplier
    potentialPayout := settings.baseMultiplier
    mineCount := mineCount
    balance := savedBalance
    isPlaying := false
    isLockedIn := false }

/-- Number of revealed cells, `gameState.revealed.filter(Boolean).length`
(`GameBoard.tsx` line 43). -/
def revealedCount (s : GameState) : ℕ :=
  (s.revealed.filter id).length

/-- `handleDeposit` (`GameBoard.tsx` lines 50-55): unconditionally adds
the amount to the balance. -/
def handleDeposit (s : GameState) (amount : ℚ) : GameState :=
  { s with balance := s.balance + amount }

/-- `handleStakeChange` (`GameBoard.tsx` lines 57-65): accepts any new
stake not exceeding the balance and recomputes the potential payout. -/
def handleStakeChange (s : GameState) (newStake : ℚ) : GameState :=
  if newStake ≤ s.balance then
    { s with stake := newStake
             potentialPayout := calculatePotentialPayout newStake s.multiplier }
  else s

/-- The `setStake` action of the exposed surface: `GameBoard.tsx` line
164 renders the stake control with `disabled = gameOver || revealedCount
> 0`, so stake edits reach `handleStakeChange` only when that gate is
open. -/
def setStake (s : GameState) (newStake : ℚ) : GameState :=
  if s.gameOver = true ∨ 0 < revealedCount s then s
  else handleStakeChange s newStake

/-- `handleMineCountChange` (`GameBoard.tsx` lines 67-77): rejected once
any cell is revealed; otherwise re-draws the grid (oracle `newBlocks`)
and stores the new mine count. -/
def handleMineCountChange (s : GameState) (newMineCount : ℕ)
    (newBlocks : List Bool) : GameState :=
  if s.revealed.any id then s
  else { s with blocks := newBlocks, mineCount := newMineCount }

/-- The `setHazardCount` action of the exposed surface.  Modelled from
the spec: the mine-count input lives in `GameControls` (not present
under `src/`), which receives `maxMines = GAME_SETTINGS.maxMines` and
per the spec's precondition table only emits counts with
`1 ≤ n ≤ maxHazards`; out-of-range requests are no-ops. -/
def setHazardCount (s : GameState) (n : ℕ) (newBlocks : List Bool) : GameState :=
  if 1 ≤ n ∧ n ≤ GAME_SETTINGS.maxMines then
    handleMineCountChange s n newBlocks
  else s

/-- `handleNewGame` (`GameBoard.tsx` lines 79-84): fresh round from
`initialGameState`, carrying forward balance and mine count, then
overriding the stake with the previous stake. -/
def handleNewGame (s : GameState) (newBlocks : List Bool) : GameState :=
  { initialGameState GAME_SETTINGS s.mineCount newBlocks s.balance with
      stake := s.stake }

/-- `handleLockIn` (`GameBoard.tsx` lines 86-93): locks in only when the
stake does not exceed the balance. -/
def handleLockIn (s : GameState) : GameState :=
  if s.stake ≤ s.balance then { s with isLockedIn := true } else s

/-- JS array read `a[i]` coerced to a boolean: in range it is the
element, past the end it is `undefined`, which is falsy. -/
def jsGet (l : List Bool) (i : ℕ) : Bool :=
  l.getD i false

/-- JS `newRevealed[index] = true` on a copy of `revealed`: in range it
sets the entry; past the end it extends the array, the holes reading as
falsy (`false`). -/
def setIndexTrue (l : List Bool) (i : ℕ) : List Bool :=
  if i < l.length then l.set i true
  else l ++ List.replicate (i - l.length) false ++ [true]

/-- `handleBlockClick` (`GameBoard.tsx` lines 95-139), the `reveal`
action.  Guard order and falsy reads follow the source; the first-click
debit update is composed with the subsequent reveal update. -/
def handleBlockClick (s : GameState) (index : ℕ) : GameState :=
  if jsGet s.revealed index = true ∨ s.gameOver = true ∨ s.isLockedIn = false then
    s
  else if s.revealed.any id = false ∧ s.balance < s.stake then
    s
  else
    let s1 := if s.revealed.any id = false then
        { s with balance := s.balance - s.stake, isPlaying := true }
      else s
    let newRevealed := setIndexTrue s.revealed index
    if jsGet s.blocks index = true then
      let newScore := s.score + 1
      let newMultiplier := calculateMultiplier GAME_SETTINGS.baseMultiplier
        GAME_SETTINGS.riskFactor newScore
      { s1 with revealed := newRevealed
                score := newScore
                multiplier := newMultiplier
                potentialPayout := calculatePotentialPayout s1.stake newMultiplier }
    else
      { s1 with revealed := newRevealed
                gameOver := true
                isPlaying := false }

/-- `handleCashout` (`GameBoard.tsx` lines 141-147): fresh round seeded
with `balance + stake * multiplier`, stake carried forward. -/
def handleCashout (s : GameState) (newBlocks : List Bool) : GameState :=
  { initialGameState GAME_SETTINGS s.mineCount newBlocks
      (s.balance + s.stake * s.multiplier) with
      stake := s.stake }

/-- One player action of the exposed surface; grid-re-drawing actions
carry the random draw as an oracle argument. -/
inductive GameAction where
  | deposit (amount : ℚ)
  | setStake (newStake : ℚ)
  | setHazardCount (n : ℕ) (newBlocks : List Bool)
  | newRound (newBlocks : List Bool)
  | lockIn
  | reveal (index : ℕ)
  | cashOut (newBlocks : List Bool)
deriving DecidableEq

/-- Dispatch of one action to its handler. -/
def step (s : GameState) : GameAction → GameState
  | .deposit a => handleDeposit s a
  | .setStake v => setStake s v
  | .setHazardCount n b => setHazardCount s n b
  | .newRound b => handleNewGame s b
  | .lockIn => handleLockIn s
  | .reveal i => handleBlockClick s i
  | .cashOut b => handleCashout s b

/-- Running a sequence of actions from a state. -/
def run (s : GameState) (acts : List GameAction) : GameState :=
  acts.foldl step s

/-- The spec's domain restriction on action arguments: deposits are
non-negative (spec precondition) and stake edits are non-negative (spec
data model `stake: non-negative real`). -/
def GoodAction : GameAction → Prop
  | .deposit a => 0 ≤ a
  | .setStake v => 0 ≤ v
  | _ => True

instance : DecidablePred GoodAction := by
  intro a
  cases a <;> simp only [GoodAction] <;> infer_instance

/-! ## Helper lemmas -/

/-- The reveal counter is positive exactly when some cell is revealed. -/
lemma revealedCount_pos_iff (s : GameState) :
    0 < revealedCount s ↔ s.revealed.any id = true := by
  unfold revealedCount
  rw [← List.countP_eq_length_filter, List.countP_pos_iff, List.any_eq_true]

/-- In a round with no reveals, every falsy read of `revealed` is `false`. -/
lemma jsGet_false_of_any_eq_false (l : List Bool) (i : ℕ)
    (h : l.any id = false) : jsGet l i = false := by
  rw [jsGet, List.getD_eq_getElem?_getD]
  rcases Nat.lt_or_ge i l.length with hlt | hge
  · have hmem : l[i] ∈ l := List.getElem_mem hlt
    have hfalse := List.any_eq_false.mp h _ hmem
    simp only [id, Bool.not_eq_true] at hfalse
    simp [List.getElem?_eq_getElem hlt, hfalse]
  · simp [List.getElem?_eq_none hge]

/-- Reads past the end of the array are falsy. -/
lemma jsGet_false_of_le (l : List Bool) (i : ℕ) (h : l.length ≤ i) :
    jsGet l i = false :=
  List.getD_eq_default l false h

/-- The JS write `a[i] = true` makes index `i` read as `true`, in range or
past the end. -/
lemma setIndexTrue_jsGet (l : List Bool) (i : ℕ) :
    jsGet (setIndexTrue l i) i = true := by
  unfold setIndexTrue jsGet
  rcases Nat.lt_or_ge i l.length with hlt | hge
  · rw [if_pos hlt]
    simp [List.getD_eq_getElem?_getD, List.getElem?_set_self, hlt]
  · rw [if_neg (Nat.not_lt.mpr hge), List.getD_eq_getElem?_getD]
    have hlen : (l ++ List.replicate (i - l.length) false).length = i := by
      simp; omega
    rw [List.getElem?_append_right (le_of_eq hlen)]
    simp [hlen]

/-! ## Concrete states used to instantiate the theorems -/

/-- A locked-in fresh round over an all-gem grid: balance 5, stake 1. -/
def lockedFreshState : GameState :=
  { blocks := List.replicate 25 true
    revealed := List.replicate 25 false
    gameOver := false
    score := 0
    stake := 1
    multiplier := 6/5
    potentialPayout := 6/5
    mineCount := 5
    balance := 5
    isPlaying := false
    isLockedIn := true }

/-- A locked-in fresh round over an all-hazard grid: balance 5, stake 1. -/
def lockedHazardState : GameState :=
  { lockedFreshState with blocks := List.replicate 25 false }

/-- A mid-round state: cell 0 already revealed, stake debited. -/
def midRoundState : GameState :=
  { blocks := List.replicate 25 true
    revealed := true :: List.replicate 24 false
    gameOver := false
    score := 1
    stake := 1
    multiplier := 33/25
    potentialPayout := 33/25
    mineCount := 5
    balance := 4
    isPlaying := true
    isLockedIn := true }

/-- A locked-in fresh round holding a negative stake: balance 0, stake -5. -/
def negativeStakeState : GameState :=
  { blocks := List.replicate 25 true
    revealed := List.replicate 25 false
    gameOver := false
    score := 0
    stake := -5
    multiplier := 6/5
    potentialPayout := -6
    mineCount := 5
    balance := 0
    isPlaying := false
    isLockedIn := true }

/-! ## Claim theorems -/

/-- C7: for every state, `cashOut` credits `balance + stake * multiplier`
and yields a fresh round: `revealed` all false, `score = 0`,
`multiplier = baseMultiplier`, `gameOver = false`, `isPlaying = false`,
`isLockedIn = false`, with the previous stake and hazard count carried
forward. -/
theorem c7_cashout_fresh_round (s : GameState) (newBlocks : List Bool) :
    (handleCashout s newBlocks).balance = s.balance + s.stake * s.multiplier ∧
    (handleCashout s newBlocks).revealed =
      List.replicate GAME_SETTINGS.gridSize false ∧
    (handleCashout s newBlocks).score = 0 ∧
    (handleCashout s newBlocks).multiplier = GAME_SETTINGS.baseMultiplier ∧
    (handleCashout s newBlocks).gameOver = false ∧
    (handleCashout s newBlocks).isPlaying = false ∧
    (handleCashout s newBlocks).isLockedIn = false ∧
    (handleCashout s newBlocks).stake = s.stake ∧
    (handleCashout s newBlocks).mineCount = s.mineCount := by
  simp [handleCashout, initialGameState]

/-- C10: `cashOut` has no state guard: in every state, including after a
hazard reveal (`gameOver = true`) and before any reveal, it credits
`balance + stake * multiplier` (using the accumulated multiplier) and
clears `gameOver`, so a forfeited stake's payout is still collectible. -/
theorem c10_cashout_unguarded (s : GameState) (newBlocks : List Bool) :
    (handleCashout s newBlocks).balance = s.balance + s.stake * s.multiplier ∧
    (handleCashout s newBlocks).gameOver = false := by
  simp [handleCashout, initialGameState]

/-- C4 (failing input): after `deposit 10; setStake 2; newRound`, the
snapshot violates `potentialPayout = stake * multiplier`: the stake is
carried forward as 2 while `potentialPayout` stays at the hard-coded
`baseMultiplier = 1.2` instead of `2 * 1.2 = 2.4`. -/
theorem c4_payout_not_recomputed :
    (run (initialGameState GAME_SETTINGS 5 (List.replicate 25 true) 0)
      [GameAction.deposit 10, GameAction.setStake 2,
       GameAction.newRound (List.replicate 25 true)]).stake = 2 ∧
    (run (initialGameState GAME_SETTINGS 5 (List.replicate 25 true) 0)
      [GameAction.deposit 10, GameAction.setStake 2,
       GameAction.newRound (List.replicate 25 true)]).multiplier = 6/5 ∧
    (run (initialGameState GAME_SETTINGS 5 (List.replicate 25 true) 0)
      [GameAction.deposit 10, GameAction.setStake 2,
       GameAction.newRound (List.replicate 25 true)]).potentialPayout = 6/5 ∧
    (run (initialGameState GAME_SETTINGS 5 (List.replicate 25 true) 0)
      [GameAction.deposit 10, GameAction.setStake 2,
       GameAction.newRound (List.replicate 25 true)]).potentialPayout ≠
      (run (initialGameState GAME_SETTINGS 5 (List.replicate 25 true) 0)
        [GameAction.deposit 10, GameAction.setStake 2,
         GameAction.newRound (List.replicate 25 true)]).stake *
      (run (initialGameState GAME_SETTINGS 5 (List.replicate 25 true) 0)
        [GameAction.deposit 10, GameAction.setStake 2,
         GameAction.newRound (List.replicate 25 true)]).multiplier := by
  norm_num [run, step, setStake, handleStakeChange, handleDeposit,
    handleNewGame, initialGameState, revealedCount, GAME_SETTINGS,
    calculatePotentialPayout]

/-- C3: once any cell is revealed, `setStake` leaves the state unchanged;
and whenever a stake edit changes the state, no cell was revealed, the
new stake did not exceed the balance, and the state change is exactly
`stake = newStake` with `potentialPayout` recomputed. -/
theorem c3_stake_edit_guard (s : GameState) (newStake : ℚ) :
    (s.revealed.any id = true → setStake s newStake = s) ∧
    (setStake s newStake ≠ s →
      s.revealed.any id = false ∧ newStake ≤ s.balance ∧
      (setStake s newStake).stake = newStake ∧
      (setStake s newStake).potentialPayout =
        calculatePotentialPayout newStake s.multiplier) := by
  constructor
  · intro hrev
    unfold setStake
    rw [if_pos (Or.inr ((revealedCount_pos_iff s).mpr hrev))]
  · intro hchanged
    unfold setStake at hchanged ⊢
    by_cases hdis : s.gameOver = true ∨ 0 < revealedCount s
    · exact absurd rfl (by rwa [if_pos hdis] at hchanged)
    · rw [if_neg hdis] at hchanged ⊢
      unfold handleStakeChange at hchanged ⊢
      by_cases hle : newStake ≤ s.balance
      · rw [if_pos hle]
        refine ⟨?_, hle, rfl, rfl⟩
        have : ¬ 0 < revealedCount s := fun h => hdis (Or.inr h)
        rw [← Bool.not_eq_true]
        exact fun h => this ((revealedCount_pos_iff s).mpr h)
      · exact absurd rfl (by rwa [if_neg hle] at hchanged)

/-- C5: within one round, the first accepted reveal debits the stake
exactly once (`balance - stake`, `isPlaying` set on a safe cell) and only
proceeds when `stake ≤ balance` (otherwise a no-op); once any cell is
revealed, further reveals never change the balance. -/
theorem c5_first_reveal_debit (s : GameState) (i : ℕ) :
    (s.revealed.any id = false → s.gameOver = false → s.isLockedIn = true →
      (s.balance < s.stake → handleBlockClick s i = s) ∧
      (s.stake ≤ s.balance →
        (handleBlockClick s i).balance = s.balance - s.stake ∧
        (jsGet s.blocks i = true →
          (handleBlockClick s i).isPlaying = true))) ∧
    (s.revealed.any id = true →
      (handleBlockClick s i).balance = s.balance) := by
  constructor
  · intro hany hover hlock
    constructor
    · intro hlt
      simp [handleBlockClick, jsGet_false_of_any_eq_false _ _ hany, hany, hover,
        hlock, hlt]
    · intro hle
      by_cases hgem : jsGet s.blocks i = true <;>
        simp [handleBlockClick, jsGet_false_of_any_eq_false _ _ hany, hany,
          hover, hlock, hgem, not_lt.mpr hle]
  · intro hany
    unfold handleBlockClick
    by_cases hguard : jsGet s.revealed i = true ∨ s.gameOver = true ∨
        s.isLockedIn = false
    · rw [if_pos hguard]
    · by_cases hgem : jsGet s.blocks i = true <;>
        simp [hguard, hany, hgem]

/-- C5 witness: in the locked fresh state (balance 5, stake 1), revealing
cell 0 debits the stake and starts play. -/
theorem c5_first_reveal_debit_witness :
    (handleBlockClick lockedFreshState 0).balance =
      lockedFreshState.balance - lockedFreshState.stake ∧
    (handleBlockClick lockedFreshState 0).isPlaying = true :=
  have h := ((c5_first_reveal_debit lockedFreshState 0).1 (by decide)
    (by decide) (by decide)).2 (by norm_num [lockedFreshState])
  ⟨h.1, h.2 (by decide)⟩

/-- Characterization of an accepted reveal that hits a hazard (the ruby
branch of `handleBlockClick`): round ends, index marked, balance at its
post-debit value, score and multiplier untouched. -/
lemma handleBlockClick_hazard (s : GameState) (i : ℕ)
    (hlock : s.isLockedIn = true) (hover : s.gameOver = false)
    (hnot : jsGet s.revealed i = false)
    (hhaz : jsGet s.blocks i = false)
    (hfunds : s.revealed.any id = false → s.stake ≤ s.balance) :
    (handleBlockClick s i).gameOver = true ∧
    (handleBlockClick s i).isPlaying = false ∧
    jsGet (handleBlockClick s i).revealed i = true ∧
    (handleBlockClick s i).balance =
      (if s.revealed.any id = false then s.balance - s.stake else s.balance) ∧
    (handleBlockClick s i).score = s.score ∧
    (handleBlockClick s i).multiplier = s.multiplier := by
  by_cases hfirst : s.revealed.any id = false
  · have hle := hfunds hfirst
    simp [handleBlockClick, hnot, hover, hlock, hfirst, hhaz,
      not_lt.mpr hle, setIndexTrue_jsGet]
  · have hany : s.revealed.any id = true := by
      rcases Bool.eq_false_or_eq_true (s.revealed.any id) with h | h
      · exact h
      · exact absurd h hfirst
    simp [handleBlockClick, hnot, hover, hlock, hany, hhaz, setIndexTrue_jsGet]

/-- C6: an accepted reveal of a hazard cell ends the round: `gameOver`
set, `isPlaying` cleared, the index marked revealed, the balance left at
its post-debit value (stake forfeited, not refunded), and score and
multiplier unchanged. -/
theorem c6_hazard_reveal (s : GameState) (i : ℕ)
    (hlock : s.isLockedIn = true) (hover : s.gameOver = false)
    (hnot : jsGet s.revealed i = false)
    (hhaz : jsGet s.blocks i = false)
    (hfunds : s.revealed.any id = false → s.stake ≤ s.balance) :
    (handleBlockClick s i).gameOver = true ∧
    (handleBlockClick s i).isPlaying = false ∧
    jsGet (handleBlockClick s i).revealed i = true ∧
    (handleBlockClick s i).balance =
      (if s.revealed.any id = false then s.balance - s.stake else s.balance) ∧
    (handleBlockClick s i).score = s.score ∧
    (handleBlockClick s i).multiplier = s.multiplier :=
  handleBlockClick_hazard s i hlock hover hnot hhaz hfunds

/-- C6 witness: in the locked fresh state over an all-hazard grid,
revealing cell 0 sets `gameOver` and leaves the balance at its
post-debit value. -/
theorem c6_hazard_reveal_witness :
    (handleBlockClick lockedHazardState 0).gameOver = true ∧
    (handleBlockClick lockedHazardState 0).balance =
      (if lockedHazardState.revealed.any id = false
        then lockedHazardState.balance - lockedHazardState.stake
        else lockedHazardState.balance) :=
  have h := c6_hazard_reveal lockedHazardState 0 (by decide) (by decide)
    (by decide) (by decide)
    (fun _ => by norm_num [lockedHazardState, lockedFreshState])
  ⟨h.1, h.2.2.2.1⟩

/-- C9: `setStake` imposes no lower bound: any `newStake ≤ balance`,
negative included, is accepted in a fresh round; with a negative stake
the first reveal increases the balance by `|stake|`, and `cashOut`
strictly decreases the balance (by `|stake * multiplier|`). -/
theorem c9_negative_stake (s : GameState) (v : ℚ) (i : ℕ) (b : List Bool) :
    (s.gameOver = false → s.revealed.any id = false → v ≤ s.balance →
      (setStake s v).stake = v) ∧
    (s.stake < 0 → s.stake ≤ s.balance → s.revealed.any id = false →
      s.isLockedIn = true → s.gameOver = false →
      (handleBlockClick s i).balance = s.balance - s.stake ∧
      s.balance < (handleBlockClick s i).balance) ∧
    (s.stake < 0 → 0 < s.multiplier →
      (handleCashout s b).balance = s.balance + s.stake * s.multiplier ∧
      (handleCashout s b).balance < s.balance) := by
  refine ⟨?_, ?_, ?_⟩
  · intro hover hany hle
    have hcount : ¬ 0 < revealedCount s := by
      intro h
      have h2 := (revealedCount_pos_iff s).mp h
      rw [hany] at h2
      exact Bool.false_ne_true h2
    simp [setStake, handleStakeChange, hover, hle, hcount]
  · intro hneg hle hany hlock hover
    have hbal : (handleBlockClick s i).balance = s.balance - s.stake := by
      by_cases hgem : jsGet s.blocks i = true <;>
        simp [handleBlockClick, jsGet_false_of_any_eq_false _ _ hany, hany,
          hover, hlock, hgem, not_lt.mpr hle]
    exact ⟨hbal, by rw [hbal]; linarith⟩
  · intro hneg hpos
    have hcredit : (handleCashout s b).balance =
        s.balance + s.stake * s.multiplier := by
      simp [handleCashout, initialGameState]
    have hdrop : s.stake * s.multiplier < 0 := mul_neg_of_neg_of_pos hneg hpos
    exact ⟨hcredit, by rw [hcredit]; linarith⟩

/-- C9 witness: from the negative-stake state (balance 0, stake -5),
the first reveal raises the balance from 0 to 5. -/
theorem c9_negative_stake_witness :
    (handleBlockClick negativeStakeState 0).balance =
      negativeStakeState.balance - negativeStakeState.stake ∧
    negativeStakeState.balance < (handleBlockClick negativeStakeState 0).balance :=
  (c9_negative_stake negativeStakeState (-5) 0 []).2.1
    (by norm_num [negativeStakeState]) (by norm_num [negativeStakeState])
    (by decide) (by decide) (by decide)

/-- C3 witness: in the mid-round state (cell 0 revealed), a stake edit is
a no-op. -/
theorem c3_stake_edit_guard_witness :
    setStake midRoundState 2 = midRoundState :=
  (c3_stake_edit_guard midRoundState 2).1 (by decide)

/-- C2 (counterexample): in a reachable locked-in state (deposit 5, lock
in), revealing the out-of-range index 25 is not a no-op: it flips
`gameOver` (the JS read `blocks[25]` is `undefined`, hence falsy, so the
hazard branch runs). -/
theorem c2_out_of_range_not_noop :
    handleBlockClick
      (run (initialGameState GAME_SETTINGS 5 (List.replicate 25 true) 0)
        [GameAction.deposit 5, GameAction.lockIn]) 25 ≠
      run (initialGameState GAME_SETTINGS 5 (List.replicate 25 true) 0)
        [GameAction.deposit 5, GameAction.lockIn] ∧
    (handleBlockClick
      (run (initialGameState GAME_SETTINGS 5 (List.replicate 25 true) 0)
        [GameAction.deposit 5, GameAction.lockIn]) 25).gameOver = true ∧
    (run (initialGameState GAME_SETTINGS 5 (List.replicate 25 true) 0)
      [GameAction.deposit 5, GameAction.lockIn]).gameOver = false := by
  norm_num [run, step, handleDeposit, handleLockIn, handleBlockClick,
    initialGameState, GAME_SETTINGS, setIndexTrue, jsGet, List.getD,
    List.getElem?_replicate, GameState.mk.injEq]

/-- C2 (amended): an out-of-range reveal is a no-op when the round is not
locked in, already over, or unaffordable on first click; but in a
locked-in live state it is not a no-op: the JS `undefined` read takes the
hazard branch, setting `gameOver` and debiting the stake on a first
click. -/
theorem c2_out_of_range_amended (s : GameState) (i : ℕ)
    (hrev : s.revealed.length ≤ i) (hblocks : s.blocks.length ≤ i) :
    (s.isLockedIn = false ∨ s.gameOver = true → handleBlockClick s i = s) ∧
    (s.revealed.any id = false → s.balance < s.stake →
      handleBlockClick s i = s) ∧
    (s.isLockedIn = true → s.gameOver = false →
      (s.revealed.any id = false → s.stake ≤ s.balance) →
      (handleBlockClick s i).gameOver = true ∧
      (handleBlockClick s i).balance =
        (if s.revealed.any id = false then s.balance - s.stake
          else s.balance)) := by
  have hnot : jsGet s.revealed i = false := jsGet_false_of_le _ _ hrev
  have hhaz : jsGet s.blocks i = false := jsGet_false_of_le _ _ hblocks
  refine ⟨?_, ?_, ?_⟩
  · intro h
    unfold handleBlockClick
    rcases h with h | h
    · rw [if_pos (Or.inr (Or.inr h))]
    · rw [if_pos (Or.inr (Or.inl h))]
  · intro hany hlt
    unfold handleBlockClick
    by_cases hguard : jsGet s.revealed i = true ∨ s.gameOver = true ∨
        s.isLockedIn = false
    · rw [if_pos hguard]
    · rw [if_neg hguard, if_pos ⟨hany, hlt⟩]
  · intro hlock hover hfunds
    obtain ⟨h1, _, _, h4, _, _⟩ :=
      handleBlockClick_hazard s i hlock hover hnot hhaz hfunds
    exact ⟨h1, h4⟩

/-- C2 witness: the locked fresh state is live and affordable, so the
out-of-range reveal at index 25 ends the round with the stake debited. -/
theorem c2_out_of_range_amended_witness :
    (handleBlockClick lockedFreshState 25).gameOver = true ∧
    (handleBlockClick lockedFreshState 25).balance =
      (if lockedFreshState.revealed.any id = false
        then lockedFreshState.balance - lockedFreshState.stake
        else lockedFreshState.balance) :=
  (c2_out_of_range_amended lockedFreshState 25 (by decide) (by decide)).2.2
    (by decide) (by decide) (fun _ => by norm_num [lockedFreshState])

/-- Every action keeps the mine count inside `[1, maxMines]`: the only
writers are `setHazardCount` (range-guarded) and the round-resetting
actions, which carry it forward. -/
lemma step_mineCount_bounds (s : GameState) (a : GameAction)
    (h1 : 1 ≤ s.mineCount) (h2 : s.mineCount ≤ GAME_SETTINGS.maxMines) :
    1 ≤ (step s a).mineCount ∧
    (step s a).mineCount ≤ GAME_SETTINGS.maxMines := by
  cases a with
  | deposit x => simpa only [step, handleDeposit] using ⟨h1, h2⟩
  | setStake v =>
    simp only [step, setStake, handleStakeChange]
    split_ifs <;> exact ⟨h1, h2⟩
  | setHazardCount n b =>
    simp only [step, setHazardCount, handleMineCountChange]
    split_ifs with hr hrev
    · exact ⟨h1, h2⟩
    · exact ⟨hr.1, hr.2⟩
    · exact ⟨h1, h2⟩
  | newRound b =>
    simpa only [step, handleNewGame, initialGameState] using ⟨h1, h2⟩
  | lockIn =>
    simp only [step, handleLockIn]
    split_ifs <;> exact ⟨h1, h2⟩
  | reveal i =>
    simp only [step, handleBlockClick]
    split_ifs <;> exact ⟨h1, h2⟩
  | cashOut b =>
    simpa only [step, handleCashout, initialGameState] using ⟨h1, h2⟩

/-- The mine-count range is preserved along any run. -/
lemma run_mineCount_bounds (acts : List GameAction) (s : GameState)
    (h1 : 1 ≤ s.mineCount) (h2 : s.mineCount ≤ GAME_SETTINGS.maxMines) :
    1 ≤ (run s acts).mineCount ∧
    (run s acts).mineCount ≤ GAME_SETTINGS.maxMines := by
  induction acts generalizing s with
  | nil => exact ⟨h1, h2⟩
  | cons a as ih =>
    have h := step_mineCount_bounds s a h1 h2
    exact ih (step s a) h.1 h.2

/-- C8: `setHazardCount` is a no-op once any cell is revealed or when the
request leaves `[1, maxMines]`; an accepted edit stores the new count and
re-draws the grid; and along every run the mine count stays inside
`[1, maxMines]`. -/
theorem c8_hazard_count_guard (s : GameState) (n : ℕ) (newBlocks : List Bool)
    (acts : List GameAction) :
    (s.revealed.any id = true → setHazardCount s n newBlocks = s) ∧
    (¬(1 ≤ n ∧ n ≤ GAME_SETTINGS.maxMines) → setHazardCount s n newBlocks = s) ∧
    (s.revealed.any id = false → 1 ≤ n → n ≤ GAME_SETTINGS.maxMines →
      (setHazardCount s n newBlocks).mineCount = n ∧
      (setHazardCount s n newBlocks).blocks = newBlocks) ∧
    (1 ≤ s.mineCount → s.mineCount ≤ GAME_SETTINGS.maxMines →
      1 ≤ (run s acts).mineCount ∧
      (run s acts).mineCount ≤ GAME_SETTINGS.maxMines) := by
  refine ⟨?_, ?_, ?_, ?_⟩
  · intro hrev
    simp [setHazardCount, handleMineCountChange, hrev]
  · intro hr
    simp [setHazardCount, hr]
  · intro hrev hn1 hn2
    simp [setHazardCount, handleMineCountChange, hrev, hn1, hn2]
  · intro h1 h2
    exact run_mineCount_bounds acts s h1 h2

/-- C8 witness: in the locked fresh state (no reveals), setting the
hazard count to 3 stores it and installs the re-drawn grid. -/
theorem c8_hazard_count_guard_witness :
    (setHazardCount lockedFreshState 3 (List.replicate 25 false)).mineCount = 3 ∧
    (setHazardCount lockedFreshState 3 (List.replicate 25 false)).blocks =
      List.replicate 25 false :=
  (c8_hazard_count_guard lockedFreshState 3 (List.replicate 25 false) []).2.2.1
    (by decide) (by decide) (by decide)

/-- The modelled multiplier is never negative at the game's settings. -/
lemma calculateMultiplier_nonneg (n : ℕ) :
    0 ≤ calculateMultiplier GAME_SETTINGS.baseMultiplier
      GAME_SETTINGS.riskFactor n := by
  show (0:ℚ) ≤ 6/5 * (1 + 1/10) ^ n
  positivity

/-- Inductive invariant behind the amended balance claim: balance, stake
and multiplier are all non-negative. -/
def BalanceInv (s : GameState) : Prop :=
  0 ≤ s.balance ∧ 0 ≤ s.stake ∧ 0 ≤ s.multiplier

/-- Every well-formed action (non-negative deposits and stake edits)
preserves the balance invariant. -/
lemma step_balanceInv (s : GameState) (a : GameAction)
    (h : BalanceInv s) (ha : GoodAction a) : BalanceInv (step s a) := by
  obtain ⟨hb, hs, hm⟩ := h
  cases a with
  | deposit x =>
    simp only [GoodAction] at ha
    exact ⟨add_nonneg hb ha, hs, hm⟩
  | setStake v =>
    simp only [GoodAction] at ha
    simp only [step, setStake, handleStakeChange]
    split_ifs
    · exact ⟨hb, hs, hm⟩
    · exact ⟨hb, ha, hm⟩
    · exact ⟨hb, hs, hm⟩
  | setHazardCount n b =>
    simp only [step, setHazardCount, handleMineCountChange]
    split_ifs <;> exact ⟨hb, hs, hm⟩
  | newRound b =>
    refine ⟨hb, hs, ?_⟩
    show (0:ℚ) ≤ 6/5
    norm_num
  | lockIn =>
    simp only [step, handleLockIn]
    split_ifs <;> exact ⟨hb, hs, hm⟩
  | reveal i =>
    by_cases hg : jsGet s.revealed i = true ∨ s.gameOver = true ∨
        s.isLockedIn = false
    · simp only [step, handleBlockClick, if_pos hg]
      exact ⟨hb, hs, hm⟩
    · by_cases hfunds : s.revealed.any id = false ∧ s.balance < s.stake
      · simp only [step, handleBlockClick, if_neg hg, if_pos hfunds]
        exact ⟨hb, hs, hm⟩
      · by_cases hfirst : s.revealed.any id = false
        · have hle : s.stake ≤ s.balance :=
            not_lt.mp (fun hlt => hfunds ⟨hfirst, hlt⟩)
          by_cases hgem : jsGet s.blocks i = true
          · simp only [step, handleBlockClick, if_neg hg, if_neg hfunds,
              if_pos hfirst, if_pos hgem]
            refine ⟨?_, hs, calculateMultiplier_nonneg _⟩
            show 0 ≤ s.balance - s.stake
            linarith
          · simp only [step, handleBlockClick, if_neg hg, if_neg hfunds,
              if_pos hfirst, if_neg hgem]
            refine ⟨?_, hs, hm⟩
            show 0 ≤ s.balance - s.stake
            linarith
        · by_cases hgem : jsGet s.blocks i = true
          · simp only [step, handleBlockClick, if_neg hg, if_neg hfunds,
              if_neg hfirst, if_pos hgem]
            exact ⟨hb, hs, calculateMultiplier_nonneg _⟩
          · simp only [step, handleBlockClick, if_neg hg, if_neg hfunds,
              if_neg hfirst, if_neg hgem]
            exact ⟨hb, hs, hm⟩
  | cashOut b =>
    refine ⟨add_nonneg hb (mul_nonneg hs hm), hs, ?_⟩
    show (0:ℚ) ≤ 6/5
    norm_num

/-- The balance invariant is preserved along any well-formed run. -/
lemma run_balanceInv (acts : List GameAction) (s : GameState)
    (h : BalanceInv s) (hgood : ∀ a ∈ acts, GoodAction a) :
    BalanceInv (run s acts) := by
  induction acts generalizing s with
  | nil => exact h
  | cons a as ih =>
    exact ih (step s a)
      (step_balanceInv s a h (hgood a (List.mem_cons_self a as)))
      (fun x hx => hgood x (List.mem_cons_of_mem a hx))

/-- C1 (counterexample): from the initial state with balance 0, the
sequence `setStake (-5); cashOut` drives the balance to -6 < 0 — no
deposit occurs, so the claim's deposit precondition holds vacuously. -/
theorem c1_balance_goes_negative :
    (run (initialGameState GAME_SETTINGS 5 (List.replicate 25 true) 0)
      [GameAction.setStake (-5), GameAction.cashOut (List.replicate 25 true)]).balance
      < 0 := by
  norm_num [run, step, setStake, handleStakeChange, handleCashout,
    initialGameState, revealedCount, GAME_SETTINGS, calculatePotentialPayout]

/-- C1 (amended): along every action sequence whose deposits AND stake
edits are non-negative, starting from an initial state with non-negative
balance, the balance never becomes negative. -/
theorem c1_balance_nonneg_amended (mineCount : ℕ) (blocks : List Bool)
    (savedBalance : ℚ) (acts : List GameAction)
    (hbal : 0 ≤ savedBalance) (hgood : ∀ a ∈ acts, GoodAction a) :
    0 ≤ (run (initialGameState GAME_SETTINGS mineCount blocks savedBalance)
      acts).balance := by
  have h0 : BalanceInv (initialGameState GAME_SETTINGS mineCount blocks
      savedBalance) := by
    refine ⟨hbal, ?_, ?_⟩
    · show (0:ℚ) ≤ 1
      norm_num
    · show (0:ℚ) ≤ 6/5
      norm_num
  exact (run_balanceInv acts _ h0 hgood).1

/-- C1 witness: a lock-in followed by a reveal from balance 0 leaves the
balance non-negative. -/
theorem c1_balance_nonneg_amended_witness :
    0 ≤ (run (initialGameState GAME_SETTINGS 5 (List.replicate 25 true) 0)
      [GameAction.lockIn, GameAction.reveal 0]).balance :=
  c1_balance_nonneg_amended 5 (List.replicate 25 true) 0
    [GameAction.lockIn, GameAction.reveal 0] (by norm_num)
    (by intro a ha; fin_cases ha <;> simp [GoodAction])
